import Mathlib

/-!
Verification development for the obsidian-video-preview plugin.

The repository has two pipeline variants:
* `src/unnamed/part_000` (class `VideoPlugin`): structural pipeline over anchor
  elements, with channel-icon resolution and a save-time settings invariant.
* `src/main.ts` (class `MyPlugin`): textual pipeline that regex-scans raw
  markup and substitutes via string replacement.

JavaScript values flowing through JSON responses are modelled by `JsValue`;
external HTTP+JSON calls are modelled by an `Oracle` mapping the full request
URL to either a network/parse failure or a parsed JSON value.  Machine steps
that can throw (property access on null/undefined) are modelled in `Except`;
try/catch blocks of the source are explicit matches on those `Except` values.
-/

/-- A JavaScript runtime value, as far as the plugin observes them: the JSON
universe plus undefined.  Numbers are modelled as integers (the code only
compares lengths with 0). -/
inductive JsValue where
  | undef : JsValue
  | null : JsValue
  | bool : Bool → JsValue
  | num : Int → JsValue
  | str : String → JsValue
  | arr : List JsValue → JsValue
  | obj : List (String × JsValue) → JsValue

/-- JavaScript truthiness. -/
def jsTruthy : JsValue → Bool
  | JsValue.undef => false
  | JsValue.null => false
  | JsValue.bool b => b
  | JsValue.num n => decide (n ≠ 0)
  | JsValue.str s => decide (s ≠ "")
  | JsValue.arr _ => true
  | JsValue.obj _ => true

mutual
/-- JavaScript string conversion, as used by template literals and string
concatenation in the source (objects and arrays are converted by their
default toString; array elements that are null or undefined join as empty
strings). -/
def jsToString : JsValue → String
  | JsValue.undef => "undefined"
  | JsValue.null => "null"
  | JsValue.bool b => if b then "true" else "false"
  | JsValue.num n => toString n
  | JsValue.str s => s
  | JsValue.arr l => String.intercalate "," (jsToStringList l)
  | JsValue.obj _ => "[object Object]"
/-- Stringification of the elements of a JS array, for its default join. -/
def jsToStringList : List JsValue → List String
  | [] => []
  | JsValue.undef :: vs => "" :: jsToStringList vs
  | JsValue.null :: vs => "" :: jsToStringList vs
  | v :: vs => jsToString v :: jsToStringList vs
end

/-- Property access `v.name`.  Accessing a property of null or undefined
throws (modelled as `Except.error`); on anything else it yields the field
value, `length` for strings and arrays, or undefined. -/
def jsGet : JsValue → String → Except Unit JsValue
  | JsValue.undef, _ => Except.error ()
  | JsValue.null, _ => Except.error ()
  | JsValue.str s, k => Except.ok (if k = "length" then JsValue.num s.length else JsValue.undef)
  | JsValue.arr l, k => Except.ok (if k = "length" then JsValue.num l.length else JsValue.undef)
  | JsValue.obj fs, k =>
      Except.ok (match fs.find? (fun p => p.1 = k) with
        | some p => p.2
        | none => JsValue.undef)
  | _, _ => Except.ok JsValue.undef

/-- Index access `v[i]`.  Throws on null/undefined, yields the element for
arrays (undefined out of range), the one-character string for strings, and
undefined otherwise. -/
def jsIndex : JsValue → Nat → Except Unit JsValue
  | JsValue.undef, _ => Except.error ()
  | JsValue.null, _ => Except.error ()
  | JsValue.arr l, i =>
      Except.ok (match l.get? i with
        | some v => v
        | none => JsValue.undef)
  | JsValue.str s, i =>
      Except.ok (match s.toList.get? i with
        | some c => JsValue.str (String.mk [c])
        | none => JsValue.undef)
  | _, _ => Except.ok JsValue.undef

/-- Total property access for receivers already known truthy (hence not
null/undefined), where the source access cannot throw. -/
def jsGetD (v : JsValue) (k : String) : JsValue :=
  match jsGet v k with
  | Except.ok w => w
  | Except.error _ => JsValue.undef

/-- The test `x.length > 0` on a truthy `x`.  `length` of a real response is
a number or undefined; the JS comparison coerces: numbers compare, booleans
coerce to 0/1, undefined (NaN) and non-numeric values compare false.  Exotic
object/array coercions are modelled as non-numeric (false); the responses the
plugin reads never produce them for a `length` field. -/
def jsLengthPos (x : JsValue) : Bool :=
  match jsGetD x "length" with
  | JsValue.num n => decide (0 < n)
  | JsValue.bool b => b
  | _ => false

/-- An external-call oracle: for each full request URL, either a
network/JSON-parse failure (fetch rejecting or response.json() throwing) or
the parsed JSON body. -/
def Oracle : Type := String → Except Unit JsValue

/-- Hexadecimal digit, upper case, as used by percent-encoding. -/
def hexDigit (n : Nat) : Char :=
  if n < 10 then Char.ofNat (48 + n) else Char.ofNat (55 + n)

/-- UTF-8 encoding of one character, as a list of byte values. -/
def utf8Bytes (c : Char) : List Nat :=
  let n := c.toNat
  if n < 128 then [n]
  else if n < 2048 then [192 + n / 64, 128 + n % 64]
  else if n < 65536 then [224 + n / 4096, 128 + n / 64 % 64, 128 + n % 64]
  else [240 + n / 262144, 128 + n / 4096 % 64, 128 + n / 64 % 64, 128 + n % 64]

/-- Characters that encodeURIComponent leaves unescaped. -/
def uriUnreserved (c : Char) : Bool :=
  (('A' ≤ c ∧ c ≤ 'Z') ∨ ('a' ≤ c ∧ c ≤ 'z') ∨ ('0' ≤ c ∧ c ≤ '9')
    ∨ c = '-' ∨ c = '_' ∨ c = '.' ∨ c = '!' ∨ c = '~' ∨ c = '*'
    ∨ c = Char.ofNat 39 ∨ c = '(' ∨ c = ')')

/-- JavaScript encodeURIComponent. -/
def encodeURIComponent (s : String) : String :=
  String.mk (s.toList.flatMap fun c =>
    if uriUnreserved c then [c]
    else (utf8Bytes c).flatMap fun b => ['%', hexDigit (b / 16), hexDigit (b % 16)])

/-- The embed-info request URL built by both variants of fetchVideoMetadata. -/
def embedUrlOf (url : String) : String :=
  "https://noembed.com/embed?url=" ++ encodeURIComponent url

/-- Whitespace in the sense of the JS regex class backslash-s. -/
def isJsSpace (c : Char) : Bool :=
  [9, 10, 11, 12, 13, 32, 160, 5760, 8192, 8193, 8194, 8195, 8196, 8197,
   8198, 8199, 8200, 8201, 8202, 8232, 8233, 8239, 8287, 12288,
   65279].contains c.toNat

/-- Greedy match of one-or-more non-whitespace characters, returning the
matched run and the rest. -/
def takeS (s : List Char) : Option (List Char × List Char) :=
  let t := s.takeWhile fun c => !isJsSpace c
  if t.isEmpty then none else some (t, s.drop t.length)

/-- The eight literal heads the source regex can match before its final
one-or-more non-whitespace part: https or http, colon slash slash, optional
www dot, youtube.com or youtu.be, slash.  The optional group and the two
alternations expand into these literals; they are pairwise not prefixes of
one another, so the ordered backtracking of the regex engine coincides with
trying each literal. -/
def urlHeads : List (List Char) :=
  ["https://www.youtube.com/", "https://www.youtu.be/", "https://youtube.com/",
   "https://youtu.be/", "http://www.youtube.com/", "http://www.youtu.be/",
   "http://youtube.com/", "http://youtu.be/"].map String.toList

/-- Anchored-at-this-position match of the source regex: one of the eight
heads followed by a greedy nonempty non-whitespace run.  Returns the matched
run and the remainder. -/
def matchFrom (s : List Char) : Option (List Char × List Char) :=
  match urlHeads.find? (fun h => h.isPrefixOf s) with
  | some h =>
      match takeS (s.drop h.length) with
      | some (t, rest) => some (h ++ t, rest)
      | none => none
  | none => none

/-- Regex test: does the pattern match at some position. -/
def testFrom : List Char → Bool
  | [] => false
  | c :: cs => (matchFrom (c :: cs)).isSome || testFrom cs

mutual
/-- DOM nodes as the plugin builds and inspects them: an element with a tag,
a class list, further attributes in insertion order, and children; or a text
node.  Mutual with `NodeList` to keep recursion structural. -/
inductive Node where
  | elem (tag : String) (classes : List String) (attrs : List (String × String)) (children : NodeList)
  | text (s : String)
inductive NodeList where
  | nil
  | cons (n : Node) (rest : NodeList)
end

/-- Concatenation of node lists. -/
def nlAppend : NodeList → NodeList → NodeList
  | NodeList.nil, l => l
  | NodeList.cons n r, l => NodeList.cons n (nlAppend r l)

/-- Attribute lookup, as getAttribute (absent attribute reads as none). -/
def getAttr (attrs : List (String × String)) (k : String) : Option String :=
  match attrs.find? (fun p => p.1 = k) with
  | some p => some p.2
  | none => none

mutual
/-- Does a node, or any of its descendants, carry the given class.  Mutual
recursion over the node tree. -/
def nodeHasClass : Node → String → Bool
  | Node.elem _ classes _ children, c =>
      classes.contains c || nodesHaveClass children c
  | Node.text _, _ => false
def nodesHaveClass : NodeList → String → Bool
  | NodeList.nil, _ => false
  | NodeList.cons n rest, c => nodeHasClass n c || nodesHaveClass rest c
end

/-- Assigning a JS value to textContent: null reads as the empty string,
anything else converts to its string form. -/
def textOf (v : JsValue) : String :=
  match v with
  | JsValue.null => ""
  | w => jsToString w

namespace VideoPlugin

/-- Settings of the part_000 variant. -/
structure Settings where
  showThumbnail : Bool
  showChannelIcon : Bool
  apiKey : String

/-- The metadata record returned by fetchVideoMetadata in part_000.  The
first three fields are copied from the response without validation, so they
are arbitrary JS values (possibly undefined); url is the input URL;
channel_icon_url is the channel-icon result or null. -/
structure VideoMeta where
  title : JsValue
  author_name : JsValue
  thumbnail_url : JsValue
  url : String
  channel_icon_url : JsValue

/-- URL classification: the regex test of isYouTubeUrl (non-global, searches
for a match at any position). -/
def isYouTubeUrl (url : String) : Bool :=
  testFrom url.toList

/-- The channel-directory search URL that getChannelIdFromUrl builds by
plain string concatenation, without percent-encoding. -/
def searchUrlOf (s : Settings) (customUrl : JsValue) : String :=
  "https://www.googleapis.com/youtube/v3/search?part=snippet&q="
    ++ jsToString customUrl ++ "&type=channel&key=" ++ s.apiKey

/-- The channel-detail URL built by fetchChannelIcon via a template literal. -/
def channelsUrlOf (s : Settings) (channelId : JsValue) : String :=
  "https://www.googleapis.com/youtube/v3/channels?part=snippet&id="
    ++ jsToString channelId ++ "&key=" ++ s.apiKey

/-- getChannelIdFromUrl: one search request; on items present and nonempty,
the first item's snippet.channelId, else null; every thrown error is caught
and yields null.  Returns the value together with the requests issued. -/
def getChannelIdFromUrl (o : Oracle) (s : Settings) (customUrl : JsValue) :
    JsValue × List String :=
  let url := searchUrlOf s customUrl
  match o url with
  | Except.error _ => (JsValue.null, [url])
  | Except.ok data =>
      match jsGet data "items" with
      | Except.error _ => (JsValue.null, [url])
      | Except.ok items =>
          if jsTruthy items && jsLengthPos items then
            match (jsIndex items 0).bind (fun it => jsGet it "snippet") |>.bind
                (fun sn => jsGet sn "channelId") with
            | Except.ok cid => (cid, [url])
            | Except.error _ => (JsValue.null, [url])
          else (JsValue.null, [url])

/-- The extraction fetchChannelIcon performs on the channel-detail response:
if items is truthy with positive length, the first item's
snippet.thumbnails.default.url; reaching past a missing field throws. -/
def extractIcon (data : JsValue) : Except Unit (Option JsValue) :=
  match jsGet data "items" with
  | Except.error _ => Except.error ()
  | Except.ok items =>
      if jsTruthy items && jsLengthPos items then
        match (jsIndex items 0).bind (fun it => jsGet it "snippet") |>.bind
            (fun sn => jsGet sn "thumbnails") |>.bind
            (fun th => jsGet th "default") |>.bind
            (fun d => jsGet d "url") with
        | Except.ok u => Except.ok (some u)
        | Except.error _ => Except.error ()
      else Except.ok none

/-- fetchChannelIcon: resolve the channel id (which never throws), then one
channel-detail request; extract the default thumbnail URL; any thrown error
and every missing-result path converge to null via the try/catch. -/
def fetchChannelIcon (o : Oracle) (s : Settings) (channelUrl : JsValue) :
    JsValue × List String :=
  let (cid, t1) := getChannelIdFromUrl o s channelUrl
  let url := channelsUrlOf s cid
  match o url with
  | Except.error _ => (JsValue.null, t1 ++ [url])
  | Except.ok data =>
      match extractIcon data with
      | Except.error _ => (JsValue.null, t1 ++ [url])
      | Except.ok (some u) => (u, t1 ++ [url])
      | Except.ok none => (JsValue.null, t1 ++ [url])

/-- fetchVideoMetadata of part_000: one embed-info request; on a truthy JSON
body, copy title, author_name and thumbnail_url verbatim (no presence
check), resolve the channel icon only when showChannelIcon is set, and
record the input URL; on a falsy body or any failure, null.  Returns the
result together with the requests issued. -/
def fetchVideoMetadata (o : Oracle) (s : Settings) (url : String) :
    Option VideoMeta × List String :=
  let req := embedUrlOf url
  match o req with
  | Except.error _ => (none, [req])
  | Except.ok data =>
      if jsTruthy data then
        if s.showChannelIcon then
          let (cio, t) := fetchChannelIcon o s (jsGetD data "author_url")
          (some ⟨jsGetD data "title", jsGetD data "author_name",
                 jsGetD data "thumbnail_url", url, cio⟩, req :: t)
        else
          (some ⟨jsGetD data "title", jsGetD data "author_name",
                 jsGetD data "thumbnail_url", url, JsValue.null⟩, [req])
      else (none, [req])

/-- createPrettyLink of part_000: an anchor carrying the original URL as its
link target, with a thumbnail image exactly when showThumbnail is set (no
check of the thumbnail URL), and a banner holding the optional channel icon
and the title/author text block. -/
def createPrettyLink (s : Settings) (md : VideoMeta) : Node :=
  let thumb := Node.elem "img" ["video-thumbnail"]
    [("src", jsToString md.thumbnail_url)] NodeList.nil
  let titleEl := Node.elem "strong" [] [] (NodeList.cons (Node.text (textOf md.title)) NodeList.nil)
  let authorEl := Node.elem "span" [] [] (NodeList.cons (Node.text (textOf md.author_name)) NodeList.nil)
  let textContainer := Node.elem "div" ["video-text-container"] []
    (NodeList.cons titleEl (NodeList.cons authorEl NodeList.nil))
  let chanImg := Node.elem "img" ["channel-icon"]
    [("src", jsToString md.channel_icon_url)] NodeList.nil
  let bannerKids :=
    if jsTruthy md.channel_icon_url then
      NodeList.cons chanImg (NodeList.cons textContainer NodeList.nil)
    else NodeList.cons textContainer NodeList.nil
  let banner := Node.elem "div" ["banner"] [] bannerKids
  let kids :=
    if s.showThumbnail then NodeList.cons thumb (NodeList.cons banner NodeList.nil)
    else NodeList.cons banner NodeList.nil
  Node.elem "a" ["video-metadata-container"]
    [("href", md.url), ("target", "_blank"), ("rel", "noopener noreferrer")] kids

mutual
/-- processMarkdown of part_000, per node: an anchor whose link target is a
recognized video URL is resolved and, on success, replaced wholesale by the
pretty link (one substitution); on a failed resolution it is left untouched;
other elements are traversed into.  Returns the node, the requests issued
and the number of substitutions. -/
def processNode (o : Oracle) (s : Settings) : Node → Node × List String × Nat
  | Node.elem tag cls attrs ch =>
      if tag = "a" then
        match getAttr attrs "href" with
        | some u =>
            if isYouTubeUrl u then
              match fetchVideoMetadata o s u with
              | (some md, t) => (createPrettyLink s md, t, 1)
              | (none, t) => (Node.elem tag cls attrs ch, t, 0)
            else (Node.elem tag cls attrs ch, [], 0)
        | none => (Node.elem tag cls attrs ch, [], 0)
      else
        let (ch2, t, k) := processNodeList o s ch
        (Node.elem tag cls attrs ch2, t, k)
  | Node.text t => (Node.text t, [], 0)
def processNodeList (o : Oracle) (s : Settings) : NodeList → NodeList × List String × Nat
  | NodeList.nil => (NodeList.nil, [], 0)
  | NodeList.cons n rest =>
      let (n2, t1, k1) := processNode o s n
      let (r2, t2, k2) := processNodeList o s rest
      (NodeList.cons n2 r2, t1 ++ t2, k1 + k2)
end

/-- Outcome of a saveSettings call: the persisted data afterwards, whether a
notice was shown, and whether saveData was reached. -/
structure SaveOutcome where
  persisted : Option Settings
  noticed : Bool
  saved : Bool

/-- saveSettings: refuse (notice, no write) exactly when showChannelIcon is
set and the apiKey string is falsy, i.e. empty; otherwise persist the
settings. -/
def saveSettings (s : Settings) (prior : Option Settings) : SaveOutcome :=
  if s.showChannelIcon && s.apiKey = "" then
    ⟨prior, true, false⟩
  else
    ⟨some s, false, true⟩

end VideoPlugin

/-- Global regex scan, as innerHTML.match with the g flag: repeatedly find
the leftmost match, emit it, and continue after it; on a failed position,
advance one character.  The fuel argument, instantiated with the string
length, bounds the scan; every match consumes at least one character, so the
bound is never hit. -/
def scanMatchesAux : Nat → List Char → List (List Char)
  | 0, _ => []
  | _ + 1, [] => []
  | fuel + 1, c :: cs =>
      match matchFrom (c :: cs) with
      | some (m, rest) => m :: scanMatchesAux fuel rest
      | none => scanMatchesAux fuel cs

/-- All matches of the video-URL regex in a string, in order. -/
def scanMatches (s : List Char) : List (List Char) :=
  scanMatchesAux s.length s

/-- Split a list around the leftmost occurrence of a pattern: the part
before, and the part after. -/
def splitFirst (u : List Char) : List Char → Option (List Char × List Char)
  | [] => if u.isPrefixOf ([] : List Char) then some ([], []) else none
  | c :: cs =>
      if u.isPrefixOf (c :: cs) then some ([], (c :: cs).drop u.length)
      else
        match splitFirst u cs with
        | some (a, b) => some (c :: a, b)
        | none => none

/-- JavaScript String.replace with a plain string pattern: replace the
leftmost occurrence only; no occurrence leaves the string unchanged.
Dollar escapes in the replacement are not interpreted (the serialized
replacements considered contain no dollar patterns). -/
def replaceFirst (h u p : List Char) : List Char :=
  match splitFirst u h with
  | some (a, b) => a ++ p ++ b
  | none => h

/-- Does a pattern occur anywhere in a list. -/
def containsL (h u : List Char) : Bool :=
  (splitFirst u h).isSome

/-- Split a character list on a separator character. -/
def splitOnChar (sep : Char) : List Char → List (List Char)
  | [] => [[]]
  | c :: cs =>
      let r := splitOnChar sep cs
      if c = sep then [] :: r
      else
        match r with
        | [] => [[c]]
        | h :: t => (c :: h) :: t

/-- The value a server receives for a query parameter of a request URL: the
text after the first question mark, truncated at the fragment marker, split
on ampersands, first segment of the form key equals value. -/
def queryValue (url k : String) : Option String :=
  match splitFirst ['?'] url.toList with
  | none => none
  | some (_, q0) =>
      let q := q0.takeWhile fun c => c ≠ '#'
      match (splitOnChar '&' q).find? (fun seg => (k.toList ++ ['=']).isPrefixOf seg) with
      | some seg => some (String.mk (seg.drop (k.length + 1)))
      | none => none

/-- Text-node escaping used by innerHTML serialization. -/
def escapeText (s : String) : String :=
  String.mk (s.toList.flatMap fun c =>
    if c = '&' then "&amp;".toList
    else if c = '<' then "&lt;".toList
    else if c = '>' then "&gt;".toList
    else [c])

/-- Attribute-value escaping used by innerHTML serialization. -/
def escapeAttr (s : String) : String :=
  String.mk (s.toList.flatMap fun c =>
    if c = '&' then "&amp;".toList
    else if c = '"' then "&quot;".toList
    else [c])

mutual
/-- HTML serialization of a node, as outerHTML renders the nodes the plugin
builds: class attribute first (set before the others), img as a void
element. -/
def serializeNode : Node → String
  | Node.elem tag classes attrs ch =>
      let clsAttr :=
        if classes.isEmpty then ""
        else " class=\"" ++ escapeAttr (String.intercalate " " classes) ++ "\""
      let rest := String.join (attrs.map fun p => " " ++ p.1 ++ "=\"" ++ escapeAttr p.2 ++ "\"")
      if tag = "img" then "<img" ++ clsAttr ++ rest ++ ">"
      else "<" ++ tag ++ clsAttr ++ rest ++ ">" ++ serializeNodes ch ++ "</" ++ tag ++ ">"
  | Node.text s => escapeText s
def serializeNodes : NodeList → String
  | NodeList.nil => ""
  | NodeList.cons n rest => serializeNode n ++ serializeNodes rest
end

namespace MyPlugin

/-- Settings of the main.ts variant. -/
structure MySettings where
  showThumbnail : Bool

/-- The metadata record returned by fetchVideoMetadata in main.ts: the three
fields copied from the response without validation. -/
structure MyMeta where
  title : JsValue
  author_name : JsValue
  thumbnail_url : JsValue

/-- fetchVideoMetadata of main.ts: one embed-info request; on a truthy JSON
body, copy the fields verbatim; otherwise null. -/
def fetchVideoMetadata (o : Oracle) (url : String) : Option MyMeta :=
  match o (embedUrlOf url) with
  | Except.error _ => none
  | Except.ok data =>
      if jsTruthy data then
        some ⟨jsGetD data "title", jsGetD data "author_name", jsGetD data "thumbnail_url"⟩
      else none

/-- createPrettyLink of main.ts: a div with title and author lines, and a
thumbnail image inserted first exactly when showThumbnail is set (no check
of the thumbnail URL). -/
def createPrettyLink (s : MySettings) (md : MyMeta) : Node :=
  let thumb := Node.elem "img" ["video-thumbnail"]
    [("src", jsToString md.thumbnail_url)] NodeList.nil
  let titleEl := Node.elem "div" ["video-title"] []
    (NodeList.cons (Node.text (textOf md.title)) NodeList.nil)
  let authorEl := Node.elem "div" ["video-author"] []
    (NodeList.cons (Node.text ("by " ++ jsToString md.author_name)) NodeList.nil)
  let kids :=
    if s.showThumbnail then
      NodeList.cons thumb (NodeList.cons titleEl (NodeList.cons authorEl NodeList.nil))
    else NodeList.cons titleEl (NodeList.cons authorEl NodeList.nil)
  Node.elem "div" ["video-metadata-container"] [] kids

/-- processMarkdown of main.ts: collect every regex match of the raw markup
once, then for each match in order, resolve metadata and, on success,
replace the leftmost occurrence of the matched string in the current markup
with the serialized pretty link; on failure, leave the markup as it is. -/
def processMarkdown (o : Oracle) (s : MySettings) (html : List Char) : List Char :=
  (scanMatches html).foldl
    (fun h u =>
      match fetchVideoMetadata o (String.mk u) with
      | some md => replaceFirst h u (serializeNode (createPrettyLink s md)).toList
      | none => h)
    html

end MyPlugin

/-- Spec-side predicate, following the spec words: the string contains, at
some position, scheme then optional www dot then a recognized host then a
slash then a nonempty non-whitespace path. -/
def specContainsUrl (u : String) : Prop :=
  ∃ pre h c post, h ∈ urlHeads ∧ u.toList = pre ++ h ++ c :: post ∧ isJsSpace c = false

/-- Spec-side predicate for the claim as stated: the string itself matches
scheme then optional www dot then recognized host then slash then path,
anchored at the scheme. -/
def specAnchoredUrl (u : String) : Prop :=
  ∃ h c post, h ∈ urlHeads ∧ u.toList = h ++ c :: post ∧ isJsSpace c = false

/-- A well-formed embed response body used by the concrete runs below. -/
def okBody : JsValue :=
  JsValue.obj [("title", JsValue.str "T"), ("author_name", JsValue.str "A"),
    ("thumbnail_url", JsValue.str "TH"), ("author_url", JsValue.str "AU")]

/-- Oracle answering every request with a truthy JSON body that carries none
of the required metadata fields, as the embed service does for an unknown
URL. -/
def oC1 : Oracle := fun _ => Except.ok (JsValue.obj [("error", JsValue.str "not found")])

/-- Settings with thumbnails on and channel icons off. -/
def sThumbOnly : VideoPlugin.Settings := ⟨true, false, ""⟩

/-- Concrete recognized URL for the idempotence runs. -/
def uC3 : String := "https://youtu.be/v3"

/-- Oracle resolving exactly the embed lookup of uC3. -/
def oC3 : Oracle := fun r => if r = embedUrlOf uC3 then Except.ok okBody else Except.error ()

/-- A plain rendered anchor for uC3, as the host produces it. -/
def anchorC3 : Node :=
  Node.elem "a" [] [("href", uC3)] (NodeList.cons (Node.text uC3) NodeList.nil)

/-- Content holding just that anchor. -/
def contentC3 : NodeList := NodeList.cons anchorC3 NodeList.nil

/-- Concrete recognized URL for the gating witness. -/
def uC5 : String := "https://youtu.be/v5"

/-- Oracle answering every request with the well-formed body. -/
def oC5 : Oracle := fun _ => Except.ok okBody

/-- Settings with channel icons enabled and a nonempty key, for the icon
resolver runs. -/
def sC6 : VideoPlugin.Settings := ⟨true, true, "K"⟩

/-- Author reference for the icon resolver runs. -/
def refC6 : JsValue := JsValue.str "chan"

/-- Oracle whose channel-directory search yields no results, while the
channel-detail lookup for the literal id null yields an item with a default
thumbnail. -/
def oC6 : Oracle := fun r =>
  if r = VideoPlugin.searchUrlOf sC6 refC6 then
    Except.ok (JsValue.obj [("items", JsValue.arr [])])
  else if r = VideoPlugin.channelsUrlOf sC6 JsValue.null then
    Except.ok (JsValue.obj [("items", JsValue.arr [JsValue.obj [("snippet",
      JsValue.obj [("thumbnails", JsValue.obj [("default",
        JsValue.obj [("url", JsValue.str "ICON")])])])]])])
  else Except.error ()

/-- Metadata record whose thumbnail URL is the empty string. -/
def mdC7 : VideoPlugin.VideoMeta :=
  ⟨JsValue.str "T", JsValue.str "A", JsValue.str "", "https://youtu.be/x7", JsValue.null⟩

/-- Two overlapping recognized URLs: the second is a proper prefix of the
first as a string. -/
def u1C8 : String := "https://youtu.be/ab"

/-- The shorter of the two overlapping URLs. -/
def u2C8 : String := "https://youtu.be/a"

/-- Markup holding the long URL and then, separated by a space, the short
one. -/
def htmlC8 : List Char := (u1C8 ++ " " ++ u2C8).toList

/-- Oracle failing the embed lookup of the long URL and resolving the short
one. -/
def oC8 : Oracle := fun r => if r = embedUrlOf u2C8 then Except.ok okBody else Except.error ()

/-- main.ts settings with thumbnails on. -/
def sM : MyPlugin.MySettings := ⟨true⟩

/-- Anchor for the structural degradation witness. -/
def anchorW8 : Node :=
  Node.elem "a" [] [("href", "https://youtu.be/w8")]
    (NodeList.cons (Node.text "clip") NodeList.nil)

/-- Oracle on which every request fails. -/
def oErr : Oracle := fun _ => Except.error ()

/-- Concrete recognized URL occurring twice in the duplicate-URL run. -/
def uC9 : String := "https://youtu.be/v9"

/-- Markup holding the same recognized URL twice. -/
def htmlC9 : List Char := (uC9 ++ " " ++ uC9).toList

/-- Oracle resolving uC9 with a body whose thumbnail URL is uC9 itself, so
the produced markup contains the URL string. -/
def oC9 : Oracle := fun r =>
  if r = embedUrlOf uC9 then
    Except.ok (JsValue.obj [("title", JsValue.str "T"),
      ("author_name", JsValue.str "A"), ("thumbnail_url", JsValue.str uC9)])
  else Except.error ()

/-- Settings with a nonempty key for the query-building run. -/
def sC10 : VideoPlugin.Settings := ⟨true, true, "KEY"⟩

/-- Author reference containing an ampersand. -/
def refC10 : JsValue := JsValue.str "my&channel"

/-- Author reference containing a hash. -/
def refC10b : JsValue := JsValue.str "a#b"

/-- Video URL with reserved characters for the embed-lookup contrast. -/
def uC10 : String := "https://www.youtube.com/watch?v=1&t=2"

/-- C4: saveSettings (saveConfig) is rejected exactly when showChannelIcon
is true and the apiKey is the empty string; on rejection the previously
persisted configuration is unchanged and a user-visible notice is shown; in
every other case the configuration is persisted. -/
theorem saveSettings_invariant (s : VideoPlugin.Settings) (prior : Option VideoPlugin.Settings) :
    ((VideoPlugin.saveSettings s prior).saved = false ↔
      s.showChannelIcon = true ∧ s.apiKey = "") ∧
    ((VideoPlugin.saveSettings s prior).saved = false →
      (VideoPlugin.saveSettings s prior).persisted = prior ∧
        (VideoPlugin.saveSettings s prior).noticed = true) ∧
    ((VideoPlugin.saveSettings s prior).saved = true →
      (VideoPlugin.saveSettings s prior).persisted = some s ∧
        (VideoPlugin.saveSettings s prior).noticed = false) := by
  unfold VideoPlugin.saveSettings
  cases hsc : s.showChannelIcon <;> by_cases hk : s.apiKey = "" <;> simp [hsc, hk]

/-- Witness: the save invariant applied at a concrete rejected save. -/
theorem saveSettings_invariant_witness :
    (VideoPlugin.saveSettings ⟨true, true, ""⟩ none).saved = false :=
  (saveSettings_invariant ⟨true, true, ""⟩ none).1.mpr ⟨rfl, rfl⟩

/-- C5: with showChannelIcon disabled the metadata resolver issues only the
embed request — the channel icon resolver is never invoked, whatever the
apiKey — and any returned record has its channel icon absent (null). -/
theorem fetchVideoMetadata_gating (o : Oracle) (s : VideoPlugin.Settings) (u : String)
    (h : s.showChannelIcon = false) :
    (VideoPlugin.fetchVideoMetadata o s u).2 = [embedUrlOf u] ∧
    ∀ md, (VideoPlugin.fetchVideoMetadata o s u).1 = some md →
      md.channel_icon_url = JsValue.null := by
  unfold VideoPlugin.fetchVideoMetadata
  cases ho : o (embedUrlOf u) with
  | error e => simp [ho]
  | ok d =>
      cases ht : jsTruthy d
      · simp [ho, ht]
      · simp [ho, ht, h]

/-- Witness: the gating theorem at a concrete oracle and settings. -/
theorem fetchVideoMetadata_gating_witness :
    (VideoPlugin.fetchVideoMetadata oC5 sThumbOnly uC5).2 = [embedUrlOf uC5] ∧
    ∀ md, (VideoPlugin.fetchVideoMetadata oC5 sThumbOnly uC5).1 = some md →
      md.channel_icon_url = JsValue.null :=
  fetchVideoMetadata_gating oC5 sThumbOnly uC5 rfl

/-- C1 amended: part_000 metadata resolution yields absent exactly when the
embed request fails or its body parses to a falsy value; a truthy body
always yields a record, copying possibly missing fields verbatim. -/
theorem fetchVideoMetadata_none_iff (o : Oracle) (s : VideoPlugin.Settings) (u : String) :
    (VideoPlugin.fetchVideoMetadata o s u).1 = none ↔
      (o (embedUrlOf u) = Except.error () ∨
        ∃ d, o (embedUrlOf u) = Except.ok d ∧ jsTruthy d = false) := by
  unfold VideoPlugin.fetchVideoMetadata
  cases ho : o (embedUrlOf u) with
  | error e => simp [ho]
  | ok d =>
      cases ht : jsTruthy d
      · simp [ho, ht]
      · cases hsc : s.showChannelIcon
        · simp [ho, ht, hsc]
        · rcases hf : VideoPlugin.fetchChannelIcon o s (jsGetD d "author_url") with ⟨cio, t⟩
          simp [ho, ht, hsc, hf]

/-- Witness: the absence characterization at a failing oracle. -/
theorem fetchVideoMetadata_none_iff_witness :
    (VideoPlugin.fetchVideoMetadata oErr sThumbOnly uC5).1 = none :=
  (fetchVideoMetadata_none_iff oErr sThumbOnly uC5).mpr (Or.inl rfl)

/-- C1 counterexample: a truthy response carrying none of the required
fields (as the embed service returns for an unknown video) still yields a
record, whose required fields are all undefined. -/
theorem fetchVideoMetadata_missing_fields :
    jsGetD (JsValue.obj [("error", JsValue.str "not found")]) "title" = JsValue.undef ∧
    (VideoPlugin.fetchVideoMetadata oC1 sThumbOnly "https://youtu.be/v1").1 =
      some ⟨JsValue.undef, JsValue.undef, JsValue.undef, "https://youtu.be/v1", JsValue.null⟩ :=
  ⟨rfl, rfl⟩

/-- C6 amended: fetchChannelIcon is total — every thrown error and missing
result is caught — and its value is null unless the channel-detail
response, fetched with whatever id the identifier lookup produced (the
literal null when the search had no results), yields a first item carrying
a default thumbnail URL, which is then returned. -/
theorem fetchChannelIcon_converges (o : Oracle) (s : VideoPlugin.Settings) (ref : JsValue) :
    (VideoPlugin.fetchChannelIcon o s ref).1 = JsValue.null ∨
      ∃ d, o (VideoPlugin.channelsUrlOf s (VideoPlugin.getChannelIdFromUrl o s ref).1) =
          Except.ok d ∧
        VideoPlugin.extractIcon d = Except.ok (some (VideoPlugin.fetchChannelIcon o s ref).1) := by
  unfold VideoPlugin.fetchChannelIcon
  rcases hg : VideoPlugin.getChannelIdFromUrl o s ref with ⟨cid, t1⟩
  cases ho : o (VideoPlugin.channelsUrlOf s cid) with
  | error e => left; simp [hg, ho]
  | ok d =>
      cases he : VideoPlugin.extractIcon d with
      | error e => left; simp [hg, ho, he]
      | ok w =>
          cases w with
          | none => left; simp [hg, ho, he]
          | some v => right; exact ⟨d, by simp [hg, ho], by simp [hg, ho, he]⟩

/-- C6 counterexample: with a search yielding no results the resolver does
not short-circuit to absent: it proceeds to the detail fetch with the
literal id null, and a detail response with items yields a non-null icon. -/
theorem fetchChannelIcon_no_results_not_absent :
    (VideoPlugin.getChannelIdFromUrl oC6 sC6 refC6).1 = JsValue.null ∧
    (VideoPlugin.fetchChannelIcon oC6 sC6 refC6).1 = JsValue.str "ICON" :=
  ⟨rfl, rfl⟩

/-- C7 amended: the replacement node contains a thumbnail image exactly
when showThumbnail is set; the thumbnail URL is not consulted. -/
theorem createPrettyLink_thumbnail (s : VideoPlugin.Settings) (md : VideoPlugin.VideoMeta) :
    nodeHasClass (VideoPlugin.createPrettyLink s md) "video-thumbnail" = s.showThumbnail := by
  unfold VideoPlugin.createPrettyLink
  cases hst : s.showThumbnail <;> cases hci : jsTruthy md.channel_icon_url <;>
    simp [hst, hci, nodeHasClass, nodesHaveClass]

/-- C7 counterexample: with showThumbnail set and an empty thumbnail URL
the replacement still contains a thumbnail image element. -/
theorem createPrettyLink_empty_thumbnail :
    jsToString mdC7.thumbnail_url = "" ∧
    nodeHasClass (VideoPlugin.createPrettyLink sThumbOnly mdC7) "video-thumbnail" = true :=
  ⟨rfl, rfl⟩

/-- C10: the identifier lookup concatenates the author reference into its
query unencoded, so a reference containing an ampersand or a hash transmits
only a proper prefix of itself as the q value, while the embed lookup
percent-encodes its url parameter and transmits it whole. -/
theorem search_query_truncated :
    queryValue (VideoPlugin.searchUrlOf sC10 refC10) "q" = some "my" ∧
    jsToString refC10 = "my" ++ "&channel" ∧ "my" ≠ "my&channel" ∧
    queryValue (VideoPlugin.searchUrlOf sC10 refC10b) "q" = some "a" ∧
    queryValue (embedUrlOf uC10) "url" = some (encodeURIComponent uC10) :=
  ⟨rfl, rfl, by decide, rfl, rfl⟩

/-- The eight heads are pairwise not prefixes of one another, so at most one
can match at a position. -/
theorem heads_nonoverlap :
    ∀ h1 ∈ urlHeads, ∀ h2 ∈ urlHeads, h1.isPrefixOf h2 = true → h1 = h2 := by
  decide

/-- A takeWhile run followed by the drop of its length restores the list. -/
theorem takeWhile_append_drop_self (p : Char → Bool) (l : List Char) :
    l.takeWhile p ++ l.drop (l.takeWhile p).length = l := by
  induction l with
  | nil => rfl
  | cons a l2 ih =>
      by_cases hp : p a
      · simp [List.takeWhile_cons, hp, ih]
      · simp [List.takeWhile_cons, hp]

/-- A successful greedy run decomposes its input and starts with a
non-whitespace character. -/
theorem takeS_sound (s t r : List Char) (h : takeS s = some (t, r)) :
    s = t ++ r ∧ ∃ c t2, t = c :: t2 ∧ isJsSpace c = false := by
  cases s with
  | nil => exact absurd h (by simp [takeS])
  | cons a s2 =>
      by_cases ha : isJsSpace a
      · exact absurd h (by simp [takeS, List.takeWhile_cons, ha])
      · have hw : (a :: s2).takeWhile (fun c => !isJsSpace c) =
            a :: s2.takeWhile (fun c => !isJsSpace c) := by
          simp [List.takeWhile_cons, ha]
        unfold takeS at h
        rw [hw] at h
        simp only [List.isEmpty_cons, if_false, Bool.false_eq_true] at h
        obtain ⟨ht, hr⟩ := Prod.mk.injEq .. ▸ (Option.some.injEq .. ▸ h)
        subst ht
        subst hr
        refine ⟨?_, a, s2.takeWhile (fun c => !isJsSpace c), rfl, by simp [ha]⟩
        have h3 := takeWhile_append_drop_self (fun c => !isJsSpace c) (a :: s2)
        rw [hw] at h3
        exact h3.symm

/-- A successful anchored match means the input starts with a recognized
head followed by a non-whitespace character. -/
theorem matchFrom_sound (s m r : List Char) (h : matchFrom s = some (m, r)) :
    ∃ hd c post, hd ∈ urlHeads ∧ s = hd ++ c :: post ∧ isJsSpace c = false := by
  unfold matchFrom at h
  cases hf : urlHeads.find? (fun x => x.isPrefixOf s) with
  | none => rw [hf] at h; exact absurd h (by simp)
  | some hd =>
      simp only [hf] at h
      have hmem := List.mem_of_find?_eq_some hf
      have hpre : hd <+: s := by
        have := List.find?_some hf
        rwa [List.isPrefixOf_iff_prefix] at this
      obtain ⟨r0, hr0⟩ := hpre
      cases hts : takeS (s.drop hd.length) with
      | none => rw [hts] at h; exact absurd h (by simp)
      | some tr =>
          rcases tr with ⟨t, rest⟩
          obtain ⟨hsr, c, t2, htc, hc⟩ := takeS_sound _ _ _ hts
          refine ⟨hd, c, t2 ++ rest, hmem, ?_, hc⟩
          have hdrop : s.drop hd.length = r0 := by
            rw [← hr0, List.drop_left]
          rw [← hr0]
          rw [hdrop, htc] at hsr
          rw [hsr]
          simp

/-- A recognized head followed by a non-whitespace character always
matches. -/
theorem matchFrom_complete (hd : List Char) (c : Char) (post : List Char)
    (hmem : hd ∈ urlHeads) (hc : isJsSpace c = false) :
    (matchFrom (hd ++ c :: post)).isSome = true := by
  have hpre : hd.isPrefixOf (hd ++ c :: post) = true := by
    rw [List.isPrefixOf_iff_prefix]
    exact ⟨c :: post, rfl⟩
  have hfs : (urlHeads.find? (fun x => x.isPrefixOf (hd ++ c :: post))).isSome = true := by
    rw [List.find?_isSome]
    exact ⟨hd, hmem, hpre⟩
  obtain ⟨hd2, hf⟩ := Option.isSome_iff_exists.mp hfs
  have hmem2 := List.mem_of_find?_eq_some hf
  have hpre2 : hd2 <+: hd ++ c :: post := by
    have := List.find?_some hf
    rwa [List.isPrefixOf_iff_prefix] at this
  have h12 : hd2 = hd := by
    have p2 : hd <+: hd ++ c :: post := ⟨c :: post, rfl⟩
    rcases Nat.le_total hd2.length hd.length with hle | hle
    · exact heads_nonoverlap hd2 hmem2 hd hmem
        ((List.isPrefixOf_iff_prefix).mpr (List.prefix_of_prefix_length_le hpre2 p2 hle))
    · exact (heads_nonoverlap hd hmem hd2 hmem2
        ((List.isPrefixOf_iff_prefix).mpr (List.prefix_of_prefix_length_le p2 hpre2 hle))).symm
  subst h12
  unfold matchFrom
  simp only [hf]
  rw [List.drop_left]
  have hts : takeS (c :: post) =
      some (c :: post.takeWhile (fun x => !isJsSpace x),
        (c :: post).drop (c :: post.takeWhile (fun x => !isJsSpace x)).length) := by
    unfold takeS
    simp [List.takeWhile_cons, hc]
  rw [hts]
  rfl

/-- The regex test succeeds exactly when some split of the input has a
match starting at the split point. -/
theorem testFrom_iff (l : List Char) :
    testFrom l = true ↔ ∃ pre rest, l = pre ++ rest ∧ (matchFrom rest).isSome = true := by
  induction l with
  | nil =>
      constructor
      · intro h; exact absurd h (by simp [testFrom])
      · rintro ⟨pre, rest, heq, hm⟩
        have hp : pre = [] := (List.append_eq_nil.mp heq.symm).1
        have hr : rest = [] := (List.append_eq_nil.mp heq.symm).2
        subst hp hr
        exact absurd hm (by simp [matchFrom, urlHeads])
  | cons a l2 ih =>
      simp only [testFrom, Bool.or_eq_true]
      constructor
      · rintro (hm | ht)
        · exact ⟨[], a :: l2, rfl, hm⟩
        · obtain ⟨pre, rest, heq, hm⟩ := ih.mp ht
          exact ⟨a :: pre, rest, by rw [List.cons_append, ← heq], hm⟩
      · rintro ⟨pre, rest, heq, hm⟩
        cases pre with
        | nil =>
            left
            rw [List.nil_append] at heq
            rw [← heq] at hm
            exact hm
        | cons b pre2 =>
            right
            rw [List.cons_append] at heq
            obtain ⟨hab, hl2⟩ := List.cons.injEq .. ▸ heq
            exact ih.mpr ⟨pre2, rest, hl2, hm⟩

/-- C2 amended: the classifier returns true exactly when the string
contains, at some position, a recognized URL head followed by a nonempty
non-whitespace path: the scheme anchoring prevents partial-host matches,
but a string merely containing a recognized URL also classifies true. -/
theorem isYouTubeUrl_iff_contains (u : String) :
    VideoPlugin.isYouTubeUrl u = true ↔ specContainsUrl u := by
  unfold VideoPlugin.isYouTubeUrl specContainsUrl
  rw [testFrom_iff]
  constructor
  · rintro ⟨pre, rest, heq, hm⟩
    obtain ⟨⟨m, r⟩, hmr⟩ := Option.isSome_iff_exists.mp hm
    obtain ⟨hd, c, post, hdm, hre, hc⟩ := matchFrom_sound rest m r hmr
    refine ⟨pre, hd, c, post, hdm, ?_, hc⟩
    rw [heq, hre, List.append_assoc]
  · rintro ⟨pre, hd, c, post, hdm, heq, hc⟩
    refine ⟨pre, hd ++ c :: post, ?_, matchFrom_complete hd c post hdm hc⟩
    rw [heq, List.append_assoc]

/-- Witness: the containment characterization at a concrete recognized
URL. -/
theorem isYouTubeUrl_iff_contains_witness :
    specContainsUrl "https://youtu.be/ok" :=
  (isYouTubeUrl_iff_contains "https://youtu.be/ok").mp rfl

/-- C2 counterexample: a string that merely embeds a recognized URL after
other text classifies true, though it does not itself match the pattern
anchored at the scheme. -/
theorem isYouTubeUrl_embedded_substring :
    VideoPlugin.isYouTubeUrl "see https://youtu.be/clip" = true ∧
    ¬ specAnchoredUrl "see https://youtu.be/clip" := by
  refine ⟨rfl, ?_⟩
  rintro ⟨hd, c, post, hmem, heq, hc⟩
  simp only [urlHeads, List.map_cons, List.map_nil, List.mem_cons,
    List.not_mem_nil, or_false] at hmem
  rcases hmem with rfl | rfl | rfl | rfl | rfl | rfl | rfl | rfl <;>
    · have h2 : (['s'] : List Char) = (['h'] : List Char) := congrArg (List.take 1) heq
      exact absurd h2 (by decide)

/-- A returned metadata record carries the input URL as its url field. -/
theorem fetchVideoMetadata_url (o : Oracle) (s : VideoPlugin.Settings) (u : String)
    (md : VideoPlugin.VideoMeta) (t : List String)
    (h : VideoPlugin.fetchVideoMetadata o s u = (some md, t)) : md.url = u := by
  cases ho : o (embedUrlOf u) with
  | error e =>
      simp only [VideoPlugin.fetchVideoMetadata, ho] at h
      exact absurd h (by simp)
  | ok d =>
      cases ht : jsTruthy d
      · simp only [VideoPlugin.fetchVideoMetadata, ho, ht] at h
        exact absurd h (by simp)
      · cases hsc : s.showChannelIcon
        · simp only [VideoPlugin.fetchVideoMetadata, ho, ht, hsc] at h
          simp at h
          obtain ⟨h1, _⟩ := h
          rw [← h1]
        · rcases hfc : VideoPlugin.fetchChannelIcon o s (jsGetD d "author_url") with ⟨cio, tr⟩
          simp only [VideoPlugin.fetchVideoMetadata, ho, ht, hsc, hfc] at h
          simp at h
          obtain ⟨h1, _⟩ := h
          rw [← h1]

/-- Processing the replacement anchor for an already-resolved record
reproduces the same replacement: its link target is the record URL. -/
theorem processNode_pretty (o : Oracle) (s : VideoPlugin.Settings)
    (md : VideoPlugin.VideoMeta) (t : List String)
    (hyt : VideoPlugin.isYouTubeUrl md.url = true)
    (hf : VideoPlugin.fetchVideoMetadata o s md.url = (some md, t)) :
    VideoPlugin.processNode o s (VideoPlugin.createPrettyLink s md) =
      (VideoPlugin.createPrettyLink s md, t, 1) := by
  have hpa : getAttr [("href", md.url), ("target", "_blank"),
      ("rel", "noopener noreferrer")] "href" = some md.url := rfl
  simp [VideoPlugin.processNode, VideoPlugin.createPrettyLink, hpa, hyt, hf]

mutual
/-- Reprocessing a processed node reproduces it: a replaced anchor carries
the original URL as its link target, so the second pass resolves the same
metadata and rebuilds the identical replacement. -/
theorem processNode_idem_aux (o : Oracle) (s : VideoPlugin.Settings) :
    ∀ n : Node, (VideoPlugin.processNode o s (VideoPlugin.processNode o s n).1).1 =
      (VideoPlugin.processNode o s n).1
  | Node.text t => rfl
  | Node.elem tag cls attrs ch => by
      by_cases htag : tag = "a"
      · subst htag
        cases hhref : getAttr attrs "href" with
        | none => simp [VideoPlugin.processNode, hhref]
        | some u =>
            cases hyt : VideoPlugin.isYouTubeUrl u
            · simp [VideoPlugin.processNode, hhref, hyt]
            · rcases hf : VideoPlugin.fetchVideoMetadata o s u with ⟨mdo, t⟩
              cases mdo with
              | none => simp [VideoPlugin.processNode, hhref, hyt, hf]
              | some md =>
                  have hurl : md.url = u := fetchVideoMetadata_url o s u md t hf
                  have hyt2 : VideoPlugin.isYouTubeUrl md.url = true := by
                    rw [hurl]; exact hyt
                  have hf2 : VideoPlugin.fetchVideoMetadata o s md.url = (some md, t) := by
                    rw [hurl]; exact hf
                  have hp := processNode_pretty o s md t hyt2 hf2
                  simp [VideoPlugin.processNode, hhref, hyt, hf, hp]
      · rcases hch : VideoPlugin.processNodeList o s ch with ⟨ch2, t, k⟩
        have ih := processNodeList_idem_aux o s ch
        rw [hch] at ih
        simp only at ih
        rcases hch2 : VideoPlugin.processNodeList o s ch2 with ⟨ch3, t2, k2⟩
        rw [hch2] at ih
        simp only at ih
        simp [VideoPlugin.processNode, htag, hch, hch2, ih]
/-- Reprocessing a processed node list reproduces it. -/
theorem processNodeList_idem_aux (o : Oracle) (s : VideoPlugin.Settings) :
    ∀ l : NodeList,
      (VideoPlugin.processNodeList o s (VideoPlugin.processNodeList o s l).1).1 =
        (VideoPlugin.processNodeList o s l).1
  | NodeList.nil => rfl
  | NodeList.cons n rest => by
      rcases hn : VideoPlugin.processNode o s n with ⟨n2, tn, kn⟩
      rcases hr : VideoPlugin.processNodeList o s rest with ⟨r2, tr, kr⟩
      have ihn := processNode_idem_aux o s n
      have ihr := processNodeList_idem_aux o s rest
      rw [hn] at ihn
      rw [hr] at ihr
      simp only at ihn ihr
      rcases hn2 : VideoPlugin.processNode o s n2 with ⟨n3, tn2, kn2⟩
      rcases hr2 : VideoPlugin.processNodeList o s r2 with ⟨r3, tr2, kr2⟩
      rw [hn2] at ihn
      rw [hr2] at ihr
      simp only at ihn ihr
      simp [VideoPlugin.processNodeList, hn, hr, hn2, hr2, ihn, ihr]
end

/-- C3 amended: the structural pipeline is idempotent on content values —
re-running it reproduces the same nodes, because each replacement anchor
still carries the recognized URL and deterministically re-resolves to the
identical replacement — although substitutions and lookups do happen
again. -/
theorem processMarkdown_value_idempotent (o : Oracle) (s : VideoPlugin.Settings)
    (content : NodeList) :
    (VideoPlugin.processNodeList o s (VideoPlugin.processNodeList o s content).1).1 =
      (VideoPlugin.processNodeList o s content).1 :=
  processNodeList_idem_aux o s content

/-- C3 counterexample: on content that is exactly the pipeline output — one
replacement anchor, no other recognized URL text — a second run performs
one substitution and one embed request, not zero. -/
theorem processMarkdown_reprocesses_output :
    (VideoPlugin.processNodeList oC3 sThumbOnly
        (VideoPlugin.processNodeList oC3 sThumbOnly contentC3).1).2.2 = 1 ∧
    (VideoPlugin.processNodeList oC3 sThumbOnly
        (VideoPlugin.processNodeList oC3 sThumbOnly contentC3).1).2.1 =
      [embedUrlOf uC3] :=
  ⟨rfl, rfl⟩

/-- Processing distributes over concatenation of content: every candidate
is handled independently of its neighbours. -/
theorem processNodeList_append (o : Oracle) (s : VideoPlugin.Settings) :
    ∀ l1 l2 : NodeList,
      VideoPlugin.processNodeList o s (nlAppend l1 l2) =
        (nlAppend (VideoPlugin.processNodeList o s l1).1
           (VideoPlugin.processNodeList o s l2).1,
         (VideoPlugin.processNodeList o s l1).2.1 ++
           (VideoPlugin.processNodeList o s l2).2.1,
         (VideoPlugin.processNodeList o s l1).2.2 +
           (VideoPlugin.processNodeList o s l2).2.2)
  | NodeList.nil, l2 => by simp [nlAppend, VideoPlugin.processNodeList]
  | NodeList.cons n rest, l2 => by
      have ih := processNodeList_append o s rest l2
      rcases hn : VideoPlugin.processNode o s n with ⟨n2, tn, kn⟩
      rcases h2 : VideoPlugin.processNodeList o s rest with ⟨a2, b2, c2⟩
      rcases h3 : VideoPlugin.processNodeList o s l2 with ⟨a3, b3, c3⟩
      rw [h2, h3] at ih
      simp only at ih
      simp [nlAppend, VideoPlugin.processNodeList, hn, h2, h3, ih,
        List.append_assoc, Nat.add_assoc]

/-- C8 amended: in the structural pipeline a candidate whose resolution
yields absent is left exactly as it was, no error is surfaced (the failure
is only in the request log), and the candidates around it are processed
exactly as they would be on their own. -/
theorem processMarkdown_failed_candidate_untouched (o : Oracle) (s : VideoPlugin.Settings)
    (xs ys : NodeList) (cls : List String) (attrs : List (String × String))
    (ch : NodeList) (u : String)
    (hhref : getAttr attrs "href" = some u)
    (hyt : VideoPlugin.isYouTubeUrl u = true)
    (hfail : (VideoPlugin.fetchVideoMetadata o s u).1 = none) :
    (VideoPlugin.processNodeList o s
        (nlAppend xs (NodeList.cons (Node.elem "a" cls attrs ch) ys))).1 =
      nlAppend (VideoPlugin.processNodeList o s xs).1
        (NodeList.cons (Node.elem "a" cls attrs ch)
          (VideoPlugin.processNodeList o s ys).1) := by
  have hnode : VideoPlugin.processNode o s (Node.elem "a" cls attrs ch) =
      (Node.elem "a" cls attrs ch, (VideoPlugin.fetchVideoMetadata o s u).2, 0) := by
    rcases hf : VideoPlugin.fetchVideoMetadata o s u with ⟨mdo, t⟩
    have hm : mdo = none := by rw [hf] at hfail; exact hfail
    subst hm
    simp [VideoPlugin.processNode, hhref, hyt, hf]
  rw [processNodeList_append o s xs (NodeList.cons (Node.elem "a" cls attrs ch) ys)]
  rcases hy : VideoPlugin.processNodeList o s ys with ⟨ay, by2, cy⟩
  simp [VideoPlugin.processNodeList, hnode, hy]

/-- Witness: the degradation theorem at concrete content around a failing
oracle. -/
theorem processMarkdown_failed_candidate_untouched_witness :
    (VideoPlugin.processNodeList oErr sThumbOnly
        (nlAppend (NodeList.cons (Node.text "x") NodeList.nil)
          (NodeList.cons anchorW8 NodeList.nil))).1 =
      nlAppend (VideoPlugin.processNodeList oErr sThumbOnly
          (NodeList.cons (Node.text "x") NodeList.nil)).1
        (NodeList.cons anchorW8
          (VideoPlugin.processNodeList oErr sThumbOnly NodeList.nil).1) :=
  processMarkdown_failed_candidate_untouched oErr sThumbOnly
    (NodeList.cons (Node.text "x") NodeList.nil) NodeList.nil
    [] [("href", "https://youtu.be/w8")]
    (NodeList.cons (Node.text "clip") NodeList.nil)
    "https://youtu.be/w8" rfl rfl rfl

set_option maxRecDepth 8000 in
/-- C8 counterexample: in the textual pipeline, a failing candidate is not
left byte-for-byte unchanged by the pass: a later candidate whose URL
string first occurs inside the failing candidate text rewrites that
occurrence, destroying the failed candidate text. -/
theorem textual_failed_candidate_rewritten :
    MyPlugin.fetchVideoMetadata oC8 u1C8 = none ∧
    containsL htmlC8 u1C8.toList = true ∧
    containsL (MyPlugin.processMarkdown oC8 sM htmlC8) u1C8.toList = false :=
  ⟨rfl, rfl, rfl⟩

/-- The leftmost-occurrence splitter is sound: it decomposes the input
around the first occurrence of the pattern. -/
theorem splitFirst_sound : ∀ (u h a b : List Char), splitFirst u h = some (a, b) →
    h = a ++ u ++ b ∧ ∀ a2 b2, h = a2 ++ u ++ b2 → a.length ≤ a2.length := by
  intro u h
  induction h with
  | nil =>
      intro a b hs
      by_cases hu : u.isPrefixOf ([] : List Char)
      · have hu2 : u = [] := by
          rw [List.isPrefixOf_iff_prefix] at hu
          exact List.prefix_nil.mp hu
        unfold splitFirst at hs
        rw [if_pos hu] at hs
        obtain ⟨ha, hb⟩ := Prod.mk.injEq .. ▸ (Option.some.injEq .. ▸ hs)
        subst ha
        subst hb
        simp [hu2]
      · unfold splitFirst at hs
        rw [if_neg hu] at hs
        exact absurd hs (by simp)
  | cons c cs ih =>
      intro a b hs
      by_cases hu : u.isPrefixOf (c :: cs)
      · unfold splitFirst at hs
        rw [if_pos hu] at hs
        obtain ⟨ha, hb⟩ := Prod.mk.injEq .. ▸ (Option.some.injEq .. ▸ hs)
        subst ha
        subst hb
        have hpre : u <+: c :: cs := by
          rw [List.isPrefixOf_iff_prefix] at hu
          exact hu
        obtain ⟨r0, hr0⟩ := hpre
        constructor
        · rw [← hr0, List.drop_left]
          simp
        · intro a2 b2 _
          exact Nat.zero_le _
      · unfold splitFirst at hs
        rw [if_neg hu] at hs
        cases hrec : splitFirst u cs with
        | none => rw [hrec] at hs; exact absurd hs (by simp)
        | some pr =>
            rcases pr with ⟨a1, b1⟩
            rw [hrec] at hs
            obtain ⟨ha, hb⟩ := Prod.mk.injEq .. ▸ (Option.some.injEq .. ▸ hs)
            subst ha
            subst hb
            obtain ⟨ih1, ih2⟩ := ih a1 b1 hrec
            constructor
            · simp [ih1]
            · intro a2 b2 heq2
              cases a2 with
              | nil =>
                  exfalso
                  apply hu
                  rw [List.isPrefixOf_iff_prefix]
                  refine ⟨b2, ?_⟩
                  simpa using heq2.symm
              | cons c2 a2' =>
                  have h2 : c = c2 ∧ cs = a2' ++ u ++ b2 := by
                    have := heq2
                    simp only [List.cons_append, List.append_assoc] at this
                    obtain ⟨hc2, htail⟩ := List.cons.injEq .. ▸ this
                    exact ⟨hc2, by simpa [List.append_assoc] using htail⟩
                  have := ih2 a2' b2 h2.2
                  simp only [List.length_cons]
                  omega

/-- C9 amended: a textual substitution step rewrites exactly the leftmost
occurrence of the matched string in the current markup, preserving the
parts before and after verbatim; this is the matched occurrence only when
the matched string has no earlier occurrence. -/
theorem replaceFirst_exact (h u p a b : List Char) (hs : splitFirst u h = some (a, b)) :
    h = a ++ u ++ b ∧ replaceFirst h u p = a ++ p ++ b ∧
    ∀ a2 b2, h = a2 ++ u ++ b2 → a.length ≤ a2.length := by
  obtain ⟨h1, h2⟩ := splitFirst_sound u h a b hs
  refine ⟨h1, ?_, h2⟩
  unfold replaceFirst
  rw [hs]

/-- Witness: the exact-substitution theorem at a concrete split. -/
theorem replaceFirst_exact_witness :
    "x https://youtu.be/v9".toList = "x ".toList ++ uC9.toList ++ ([] : List Char) ∧
    replaceFirst "x https://youtu.be/v9".toList uC9.toList "P".toList =
      "x ".toList ++ "P".toList ++ ([] : List Char) ∧
    ∀ a2 b2, "x https://youtu.be/v9".toList = a2 ++ uC9.toList ++ b2 →
      ("x ".toList).length ≤ a2.length :=
  replaceFirst_exact "x https://youtu.be/v9".toList uC9.toList "P".toList
    "x ".toList [] rfl

set_option maxRecDepth 8000 in
/-- C9 counterexample: with the same recognized URL occurring twice and a
replacement whose markup contains that URL (its thumbnail source), the
second substitution rewrites the occurrence inside the already-produced
output: although the second candidate resolves successfully and was
matched, its raw occurrence survives at the end of the markup. -/
theorem textual_duplicate_url_wrong_occurrence :
    (MyPlugin.fetchVideoMetadata oC9 uC9).isSome = true ∧
    scanMatches htmlC9 = [uC9.toList, uC9.toList] ∧
    (uC9.toList).isSuffixOf (MyPlugin.processMarkdown oC9 sM htmlC9) = true :=
  ⟨rfl, rfl, rfl⟩
